import Mathlib

/-!
Shallow embedding of the `emberian/linalg` repository (src/matrix.rs and
src/system.rs).

The Rust `Mat2<T>` struct holds `data: ~[~[T]]` together with two cached
dimension fields `n` (row count) and `m` (column count).  Operations that can
fail with a fatal fault (out-of-bounds indexing, failed `assert_eq!`,
invalidated `unsafe` preconditions) are embedded as functions returning
`Option`, where `none` models the fault.  All definitions below are
translated directly from the Rust source.
-/

namespace Linalg

/-- Embedding of `Mat2<T>` from src/matrix.rs: the owned nested row storage
plus the two cached dimension fields `n` (rows) and `m` (columns). -/
structure Mat2 (T : Type) where
  data : List (List T)
  n : Nat
  m : Nat
deriving DecidableEq

/-- Embedding of `RowIterator<'self, T>` from src/matrix.rs: a reference to a
matrix together with a cursor index. -/
structure RowIterator (T : Type) where
  mat : Mat2 T
  i : Nat

/-- Well-formedness invariant of a `Mat2` as stated by the spec: every row has
exactly `m` elements and `n` equals the number of rows.  The Rust code never
checks this at use sites; it is the property the claims quantify over. -/
def Mat2.wf {T : Type} (M : Mat2 T) : Prop :=
  M.data.length = M.n ∧ ∀ r ∈ M.data, r.length = M.m

instance {T : Type} (M : Mat2 T) : Decidable (Mat2.wf M) :=
  inferInstanceAs (Decidable (M.data.length = M.n ∧ ∀ r ∈ M.data, r.length = M.m))

/-- Embedding of `Mat2::new(n, m)`: an n-by-m grid filled with `T`'s default
value (Rust `Default` becomes Lean `Inhabited`). -/
def Mat2.new (T : Type) [Inhabited T] (n m : Nat) : Mat2 T :=
  { data := List.replicate n (List.replicate m default), n := n, m := m }

/-- Embedding of `Mat2::new_with(n, m, f)`: `vec::from_fn(n, |n| vec::from_fn(m, |m| f(n,m)))`,
so `f` receives (row index, column index). -/
def Mat2.new_with {T : Type} (n m : Nat) (f : Nat → Nat → T) : Mat2 T :=
  { data := (List.range n).map (fun i => (List.range m).map (fun j => f i j)),
    n := n, m := m }

/-- Embedding of `Mat2::from_vec(m)`: `None` on an empty outer vector, `None`
when some inner vector's length differs from the first row's, otherwise the
rows are adopted as-is with `n` the number of rows and `m` the first row's
length. -/
def Mat2.from_vec {T : Type} (rows : List (List T)) : Option (Mat2 T) :=
  match rows with
  | [] => none
  | r0 :: _ =>
    if rows.all (fun x => x.length == r0.length) then
      some { data := rows, n := rows.length, m := r0.length }
    else
      none

/-- Embedding of `Mat2::get_dimension()`: returns the cached pair `(m, n)`,
i.e. (columns, rows). -/
def Mat2.get_dimension {T : Type} (M : Mat2 T) : Nat × Nat :=
  (M.m, M.n)

/-- Embedding of `Mat2::swap_rows(i, j)`: `Vec::swap` panics (here `none`)
when either index is out of bounds of the row storage. -/
def Mat2.swap_rows {T : Type} (M : Mat2 T) (i j : Nat) : Option (Mat2 T) :=
  if h : i < M.data.length ∧ j < M.data.length then
    some { M with data := (M.data.set i (M.data.get ⟨j, h.2⟩)).set j (M.data.get ⟨i, h.1⟩) }
  else
    none

/-- Embedding of `Mat2::set_row(i, r)`: `self.data[i] = r` panics (here
`none`) when `i` is out of bounds; the replacement row's length is not
checked. -/
def Mat2.set_row {T : Type} (M : Mat2 T) (i : Nat) (r : List T) : Option (Mat2 T) :=
  if i < M.data.length then
    some { M with data := M.data.set i r }
  else
    none

/-- Embedding of `Mat2::get_row(i)`: indexing `self.data[i]` panics (here
`none`) when out of bounds, otherwise yields the row. -/
def Mat2.get_row {T : Type} (M : Mat2 T) (i : Nat) : Option (List T) :=
  M.data[i]?

/-- Embedding of `Mat2::get_row_opt(i)`: `self.data.get_opt(i)`. -/
def Mat2.get_row_opt {T : Type} (M : Mat2 T) (i : Nat) : Option (List T) :=
  M.data[i]?

/-- Helper for `add_column`: pushes element `i` of the column onto row `i`.
Mirrors the loop `for (idx, itm) in column.move_iter().enumerate()` that does
`self.data[idx].push(itm)`. -/
def pushColumn {T : Type} : List (List T) → List T → List (List T)
  | rows, [] => rows
  | [], _ :: _ => []
  | r :: rs, c :: cs => (r ++ [c]) :: pushColumn rs cs

/-- Embedding of `Mat2::add_column(column)`: asserts `self.n == column.len()`
(fault on mismatch), then pushes element `idx` of the column onto row `idx`
through `unsafe_mut_ref(idx)`.  The `unsafe` access is only valid when every
`idx < column.len()` is inside the row storage, so an undersized `data` is
also modelled as a fault.  Note that the cached `m` field is left unchanged
by the source. -/
def Mat2.add_column {T : Type} (M : Mat2 T) (column : List T) : Option (Mat2 T) :=
  if M.n = column.length ∧ column.length ≤ M.data.length then
    some { M with data := pushColumn M.data column }
  else
    none

/-- Embedding of `Mat2::row_iter()`: an iterator positioned at index 0. -/
def Mat2.row_iter {T : Type} (M : Mat2 T) : RowIterator T :=
  { mat := M, i := 0 }

/-- Embedding of `RowIterator::next`: reads `get_row_opt(self.i)`, then
increments the cursor (also past the end), returning the read row together
with the advanced iterator. -/
def RowIterator.next {T : Type} (it : RowIterator T) : Option (List T) × RowIterator T :=
  (it.mat.get_row_opt it.i, { it with i := it.i + 1 })

/-- List of the first `k` outputs of repeatedly calling `next` on an
iterator, threading the advanced iterator through. -/
def iterOut {T : Type} (it : RowIterator T) : Nat → List (Option (List T))
  | 0 => []
  | k + 1 => it.next.1 :: iterOut it.next.2 k

/-- Embedding of `Mat2::scale_row(i, a)`: multiplies every element of row `i`
by `a` on the right (the source computes `self.data[i][idx] * a`); indexing
`self.data[i]` panics (here `none`) when `i` is out of bounds. -/
def Mat2.scale_row {T : Type} [Mul T] (M : Mat2 T) (i : Nat) (a : T) : Option (Mat2 T) :=
  match M.data[i]? with
  | none => none
  | some r => some { M with data := M.data.set i (r.map (fun x => x * a)) }

/-- Embedding of `Eq for Mat2`: `self.data == other.data` — only the row
storage is compared, the cached `n` and `m` fields are ignored. -/
def Mat2.matEq {T : Type} (A B : Mat2 T) : Prop :=
  A.data = B.data

instance {T : Type} [DecidableEq T] (A B : Mat2 T) : Decidable (Mat2.matEq A B) :=
  inferInstanceAs (Decidable (A.data = B.data))

/-- Helper for `add_scaled`: the mapped row
`data[i].iter().enumerate().map(|(k, x)| x * a + data[j][k])`.  Indexing
`data[j][k]` panics (here `none`) when row `j` is shorter than row `i`. -/
def scaledAdd {T : Type} [Mul T] [Add T] (a : T) : List T → List T → Option (List T)
  | [], _ => some []
  | _ :: _, [] => none
  | x :: xs, y :: ys =>
    match scaledAdd a xs ys with
    | none => none
    | some r => some ((x * a + y) :: r)

/-- Embedding of `Mat2::add_scaled(i, j, a)`: builds the row
`data[i][k] * a + data[j][k]` for each `k` over row `i`'s indices (reading the
pre-call rows), then `set_row(j, r)`.  Out-of-bounds `i` or `j` is a fault. -/
def Mat2.add_scaled {T : Type} [Mul T] [Add T] (M : Mat2 T) (i j : Nat) (a : T) :
    Option (Mat2 T) :=
  match M.data[i]?, M.data[j]? with
  | some ri, some rj =>
    match scaledAdd a ri rj with
    | none => none
    | some r => M.set_row j r
  | _, _ => none

/-- Helper for `substitute`: embedding of
`row.iter().enumerate().fold(zero, |a, (i, b)| a + values[i] * b)` starting
from accumulator `acc` and index `i`; indexing `values[i]` out of bounds is
a fault. -/
def dotFoldAux {T : Type} [Mul T] [Add T] (values : List T) :
    T → Nat → List T → Option T
  | acc, _, [] => some acc
  | acc, i, b :: bs =>
    match values[i]? with
    | none => none
    | some v => dotFoldAux values (acc + v * b) (i + 1) bs

/-- Option-valued sequencing of a cell generator over a list, propagating the
first fault; used to embed a `new_with` call whose generator can panic. -/
def optTraverse {A B : Type} (f : A → Option B) : List A → Option (List B)
  | [] => some []
  | a :: l =>
    match f a with
    | none => none
    | some b =>
      match optTraverse f l with
      | none => none
      | some bs => some (b :: bs)

/-- Option-valued variant of `new_with`: builds the `n`-by-`m` grid cell by
cell in row-major order, faulting if the generator faults on any cell. -/
def new_with_opt {T : Type} (n m : Nat) (f : Nat → Nat → Option T) : Option (Mat2 T) :=
  (optTraverse (fun i => optTraverse (fun j => f i j) (List.range m)) (List.range n)).map
    (fun d => { data := d, n := n, m := m })

/-- Embedding of `substitute(matrix, values)` from src/system.rs.  It reads
`n` as the second component of `get_dimension()` (the row count), asserts
`n == values.len()` (fault on mismatch), and then builds
`Mat2::new_with(n, 1, |_, n| ...)`.  The closure binds the COLUMN index to
`n` (the row index is discarded by `_`), so every cell folds over
`matrix.get_row(column)` with the column index always 0. -/
def substitute {T : Type} [Zero T] [Mul T] [Add T] (M : Mat2 T) (values : List T) :
    Option (Mat2 T) :=
  if M.n = values.length then
    new_with_opt M.n 1 (fun _ j =>
      match M.data[j]? with
      | none => none
      | some row => dotFoldAux values 0 0 row)
  else
    none

end Linalg

namespace Linalg

/-- Sequencing with `optTraverse` succeeds exactly when the generator
succeeds on every element of the list. -/
theorem optTraverse_isSome {A B : Type} (f : A → Option B) (l : List A) :
    (optTraverse f l).isSome ↔ ∀ a ∈ l, (f a).isSome := by
  induction l with
  | nil => simp [optTraverse]
  | cons a l ih =>
    simp only [optTraverse, List.mem_cons]
    cases hfa : f a with
    | none => simp [hfa]
    | some b =>
      cases hrest : optTraverse f l with
      | none => simp_all
      | some bs => simp_all

/-- Generators that agree on the list traverse to the same result. -/
theorem optTraverse_congr {A B : Type} {f g : A → Option B} {l : List A}
    (h : ∀ a ∈ l, f a = g a) : optTraverse f l = optTraverse g l := by
  induction l with
  | nil => rfl
  | cons a l ih =>
    simp only [optTraverse]
    rw [h a (by simp), ih (fun a ha => h a (by simp [ha]))]

/-- The enumerated fold of `substitute` succeeds exactly when the row is
empty or the value vector covers every index the fold visits. -/
theorem dotFoldAux_isSome {T : Type} [Mul T] [Add T] (values : List T) :
    ∀ (row : List T) (acc : T) (i : Nat),
      (dotFoldAux values acc i row).isSome ↔
        (row = [] ∨ i + row.length ≤ values.length) := by
  intro row
  induction row with
  | nil => simp [dotFoldAux]
  | cons b bs ih =>
    intro acc i
    simp only [dotFoldAux]
    cases hv : values[i]? with
    | none =>
      have hlen : values.length ≤ i := List.getElem?_eq_none_iff.mp hv
      simp only [Option.isSome_none, List.length_cons]
      constructor
      · intro hfalse; exact absurd hfalse (by simp)
      · intro hc
        rcases hc with hc | hc
        · exact absurd hc (by simp)
        · omega
    | some v =>
      have hi : i < values.length := by
        by_contra hcon
        rw [List.getElem?_eq_none_iff.mpr (by omega)] at hv
        exact Option.noConfusion hv
      rw [ih]
      simp only [List.length_cons]
      constructor
      · intro hc
        rcases hc with hc | hc
        · subst hc; right; simpa using hi
        · right; omega
      · intro hc
        rcases hc with hc | hc
        · exact absurd hc (by simp)
        · rcases bs with _ | ⟨c, cs⟩
          · left; rfl
          · right; simp only [List.length_cons] at hc ⊢; omega

/-- The enumerated fold only reads the value vector at the indices it
visits: vectors that agree there fold identically. -/
theorem dotFoldAux_congr {T : Type} [Mul T] [Add T] {v1 v2 : List T} :
    ∀ (row : List T) (acc : T) (i : Nat),
      (∀ k, i ≤ k → k < i + row.length → v1[k]? = v2[k]?) →
      dotFoldAux v1 acc i row = dotFoldAux v2 acc i row := by
  intro row
  induction row with
  | nil => intro acc i _; rfl
  | cons b bs ih =>
    intro acc i h
    simp only [dotFoldAux]
    rw [← h i (le_refl i) (by simp only [List.length_cons]; omega)]
    cases v1[i]? with
    | none => rfl
    | some v =>
      exact ih _ _ (fun k hk1 hk2 => h k (by omega)
        (by simp only [List.length_cons] at hk2 ⊢; omega))

/-- When row `j` is at least as long as row `i`, the `add_scaled` row build
succeeds and equals the elementwise `x * a + y` zip. -/
theorem scaledAdd_eq_zipWith {T : Type} [Mul T] [Add T] (a : T) :
    ∀ (ri rj : List T), ri.length ≤ rj.length →
      scaledAdd a ri rj = some (List.zipWith (fun x y => x * a + y) ri rj) := by
  intro ri
  induction ri with
  | nil => intro rj _; cases rj <;> rfl
  | cons x xs ih =>
    intro rj h
    cases rj with
    | nil => simp at h
    | cons y ys =>
      simp only [scaledAdd, List.zipWith]
      rw [ih ys (by simp only [List.length_cons] at h; omega)]

/-- Unrolling the iterator from any starting cursor: `k` calls to `next`
yield the optional rows at indices `s, s+1, ..., s+k-1`. -/
theorem iterOut_eq {T : Type} (M : Mat2 T) :
    ∀ (k s : Nat), iterOut ⟨M, s⟩ k = (List.range k).map (fun t => M.data[s + t]?) := by
  intro k
  induction k with
  | zero => intro s; rfl
  | succ k ih =>
    intro s
    simp only [iterOut, RowIterator.next, Mat2.get_row_opt]
    rw [List.range_succ_eq_map, List.map_cons, List.map_map, ih (s + 1)]
    congr 1
    apply List.map_congr_left
    intro t _
    simp only [Function.comp]
    congr 1
    omega

end Linalg
namespace Linalg

/-- Mapping over an option does not change whether it is present. -/
theorem isSome_map {A B : Type} (f : A → B) (o : Option A) :
    (o.map f).isSome = o.isSome := by
  cases o <;> rfl

/-- C1: the claim states that `substitute(M, v)` returns a single-column
matrix whose row `n` is the dot product of M's row `n` with `v`.  The code
instead computes every output row from M's row 0, because the `new_with`
closure `|_, n|` binds the column index (always 0), not the row index.  On
the identity matrix with values `[2, 3]` the code yields `[[2], [2]]`,
whereas the claim requires row 1 to be `3`. -/
theorem C1_substitute_uses_row_zero :
    substitute (⟨[[1, 0], [0, 1]], 2, 2⟩ : Mat2 Int) [2, 3] =
      some ⟨[[2], [2]], 2, 1⟩ ∧
    (substitute (⟨[[1, 0], [0, 1]], 2, 2⟩ : Mat2 Int) [2, 3]).map Mat2.data ≠
      some [[2], [3]] := by
  constructor
  · rfl
  · decide

/-- C2 counterexample: the 1-by-2 matrix `[[1, 2]]` with values `[5]`
satisfies the claimed precondition (`values.length = 1 = row count`), yet
`substitute` faults: the fold indexes `values[1]` out of bounds because the
row is longer than the value vector. -/
theorem C2_counterexample :
    ([5] : List Int).length = (⟨[[1, 2]], 1, 2⟩ : Mat2 Int).n ∧
    substitute (⟨[[1, 2]], 1, 2⟩ : Mat2 Int) [5] = none := by
  constructor
  · rfl
  · decide

/-- C2 (amended): on a well-formed matrix, `substitute` completes exactly
when the value vector's length equals the row count AND the matrix has
either no rows or at most as many columns as rows; with at least one row
and more columns than rows it faults even though the claimed length
precondition holds. -/
theorem C2_substitute_fault_characterisation {T : Type} [Zero T] [Mul T] [Add T]
    (M : Mat2 T) (values : List T) (hw : M.wf) :
    (substitute M values).isSome ↔
      (values.length = M.n ∧ (M.n = 0 ∨ M.m ≤ M.n)) := by
  unfold substitute
  by_cases hlen : M.n = values.length
  · rw [if_pos hlen]
    unfold new_with_opt
    rw [isSome_map, optTraverse_isSome]
    rcases Nat.eq_zero_or_pos M.n with hn | hn
    · constructor
      · intro _
        exact ⟨hlen.symm, Or.inl hn⟩
      · intro _ a ha
        rw [hn, List.range_zero] at ha
        exact absurd ha (List.not_mem_nil a)
    · have hne : M.data.length = M.n := hw.1
      obtain ⟨row0, hrow0⟩ : ∃ r, M.data[0]? = some r := by
        have hpos : 0 < M.data.length := by omega
        exact ⟨M.data[0], List.getElem?_eq_getElem hpos⟩
      have hrow0len : row0.length = M.m := by
        apply hw.2
        exact List.getElem?_mem hrow0
      constructor
      · intro h
        refine ⟨hlen.symm, Or.inr ?_⟩
        have h0 := h 0 (List.mem_range.mpr hn)
        rw [optTraverse_isSome] at h0
        have h00 := h0 0 (List.mem_range.mpr Nat.one_pos)
        have h00x : (dotFoldAux values 0 0 row0).isSome := by
          simp only [hrow0] at h00
          exact h00
        rw [dotFoldAux_isSome] at h00x
        rcases h00x with hc | hc
        · subst hc
          simp only [List.length_nil] at hrow0len
          omega
        · omega
      · rintro ⟨hvl, hc⟩
        intro i _
        rw [optTraverse_isSome]
        intro j hj
        have hj0 : j = 0 := by
          have := List.mem_range.mp hj
          omega
        subst hj0
        have hfold : (dotFoldAux values 0 0 row0).isSome := by
          rw [dotFoldAux_isSome]
          rcases hc with hc | hc
          · exact absurd hc (by omega)
          · right
            omega
        simp only [hrow0]
        exact hfold
  · rw [if_neg hlen]
    simp only [Option.isSome_none, Bool.false_eq_true, false_iff]
    rintro ⟨hvl, -⟩
    exact hlen hvl.symm

/-- C2 witness: a well-formed 2-by-2 matrix with a matching value vector
completes, instantiating the amended characterisation. -/
theorem C2_substitute_fault_characterisation_witness :
    (substitute (⟨[[1, 2], [3, 4]], 2, 2⟩ : Mat2 Int) [5, 6]).isSome ↔
      (([5, 6] : List Int).length = 2 ∧ ((2 : Nat) = 0 ∨ (2 : Nat) ≤ 2)) :=
  C2_substitute_fault_characterisation (⟨[[1, 2], [3, 4]], 2, 2⟩ : Mat2 Int) [5, 6]
    (by decide)

/-- C3: the claim states that every matrix reached from a constructor
through the row operations (with in-bounds indices and matching lengths)
keeps the invariant that every row has `col_count` elements.  The code
violates it: `Mat2::new(1, 1)` is well-formed, `add_column([5])` is applied
with matching length, yet the result has a row of length 2 while the cached
`m` field still reads 1. -/
theorem C3_add_column_breaks_invariant :
    (Mat2.new Int 1 1).wf ∧
    (Mat2.new Int 1 1).add_column [5] = some ⟨[[0, 5]], 1, 1⟩ ∧
    ¬ (⟨[[0, 5]], 1, 1⟩ : Mat2 Int).wf := by
  refine ⟨by decide, by decide, by decide⟩

/-- C4: the claim states that after `add_column` the col_count observed
through `dimensions()` increases by one.  The code appends the elements
correctly (row 0 of the 3-by-3 example becomes `[1, 2, 3, 0]`) but leaves
the cached `m` field untouched, so `get_dimension` still returns `(3, 3)`
where the claim requires `(4, 3)`. -/
theorem C4_add_column_stale_dimension :
    ((Mat2.from_vec [[1, 2, 3], [4, 5, 6], [7, 8, 9]] : Option (Mat2 Int)).bind
        (fun M => M.add_column [0, 0, 0])).map
        (fun M => (M.get_row 0, M.get_dimension)) =
      some (some [1, 2, 3, 0], (3, 3)) ∧
    ((3 : Nat), (3 : Nat)) ≠ ((4 : Nat), (3 : Nat)) := by
  refine ⟨by decide, by decide⟩

end Linalg
namespace Linalg

/-- C5 counterexample: the claim states matrix equality is false whenever
the dimensions differ.  But `Eq for Mat2` compares only the row storage, so
the two degenerate matrices `new(0, 5)` and `new(0, 7)` — both valid, with
col_counts 5 and 7 — compare equal even though `get_dimension` differs. -/
theorem C5_counterexample :
    Mat2.matEq (Mat2.new Int 0 5) (Mat2.new Int 0 7) ∧
    (Mat2.new Int 0 5).get_dimension ≠ (Mat2.new Int 0 7).get_dimension := by
  refine ⟨by decide, by decide⟩

/-- C5 (amended): matrix equality is structural equality of the row storage,
hence reflexive, symmetric and transitive; on well-formed matrices WITH AT
LEAST ONE ROW it coincides with the claimed characterisation (same
row_count, same col_count, pairwise-equal rows).  Zero-row matrices with
different cached col_counts compare equal, so the dimension clause only
holds given a row. -/
theorem C5_matEq_characterisation {T : Type} (A B C : Mat2 T)
    (hA : A.wf) (hB : B.wf) :
    Mat2.matEq A A ∧
    (Mat2.matEq A B → Mat2.matEq B A) ∧
    (Mat2.matEq A B → Mat2.matEq B C → Mat2.matEq A C) ∧
    (0 < A.n →
      (Mat2.matEq A B ↔
        A.n = B.n ∧ A.m = B.m ∧ ∀ idx : Nat, A.data[idx]? = B.data[idx]?)) := by
  refine ⟨rfl, fun h => h.symm, fun h1 h2 => h1.trans h2, fun hpos => ?_⟩
  constructor
  · intro h
    unfold Mat2.matEq at h
    have hn : A.n = B.n := by
      rw [← hA.1, ← hB.1, h]
    refine ⟨hn, ?_, fun idx => by rw [h]⟩
    have hApos : 0 < A.data.length := by
      rw [hA.1]
      omega
    obtain ⟨r0, hr0⟩ : ∃ r, A.data[0]? = some r :=
      ⟨A.data[0], List.getElem?_eq_getElem hApos⟩
    have h1 : r0.length = A.m := hA.2 _ (List.getElem?_mem hr0)
    have h2 : r0.length = B.m := by
      apply hB.2
      apply List.getElem?_mem
      rw [← h]
      exact hr0
    omega
  · rintro ⟨-, -, hidx⟩
    exact List.ext_getElem? hidx

/-- C5 witness: the amended characterisation instantiated at concrete
well-formed one-row matrices. -/
theorem C5_matEq_characterisation_witness :
    Mat2.matEq (⟨[[1]], 1, 1⟩ : Mat2 Int) ⟨[[1]], 1, 1⟩ ∧
    (Mat2.matEq (⟨[[1]], 1, 1⟩ : Mat2 Int) ⟨[[1]], 1, 1⟩ →
      Mat2.matEq (⟨[[1]], 1, 1⟩ : Mat2 Int) ⟨[[1]], 1, 1⟩) ∧
    (Mat2.matEq (⟨[[1]], 1, 1⟩ : Mat2 Int) ⟨[[1]], 1, 1⟩ →
      Mat2.matEq (⟨[[1]], 1, 1⟩ : Mat2 Int) ⟨[[1]], 1, 1⟩ →
      Mat2.matEq (⟨[[1]], 1, 1⟩ : Mat2 Int) ⟨[[1]], 1, 1⟩) ∧
    (0 < (⟨[[1]], 1, 1⟩ : Mat2 Int).n →
      (Mat2.matEq (⟨[[1]], 1, 1⟩ : Mat2 Int) ⟨[[1]], 1, 1⟩ ↔
        (⟨[[1]], 1, 1⟩ : Mat2 Int).n = (⟨[[1]], 1, 1⟩ : Mat2 Int).n ∧
        (⟨[[1]], 1, 1⟩ : Mat2 Int).m = (⟨[[1]], 1, 1⟩ : Mat2 Int).m ∧
        ∀ idx : Nat, (⟨[[1]], 1, 1⟩ : Mat2 Int).data[idx]? =
          (⟨[[1]], 1, 1⟩ : Mat2 Int).data[idx]?)) :=
  C5_matEq_characterisation (⟨[[1]], 1, 1⟩ : Mat2 Int) ⟨[[1]], 1, 1⟩ ⟨[[1]], 1, 1⟩
    (by decide) (by decide)

end Linalg
namespace Linalg

/-- C6: `from_vec` returns `none` on empty input and on ragged input (its
embedding is total, so no abort is possible), and on non-empty rectangular
input it adopts the rows with `n` the number of rows and `m` the first
row's length, producing a matrix deep-equal (in the sense of the code's
`Eq`) to one built with `new_with` from the same values. -/
theorem C6_from_vec_validates {T : Type} [Inhabited T] (rows : List (List T)) :
    Mat2.from_vec ([] : List (List T)) = none ∧
    (∀ r0 rest, rows = r0 :: rest →
      ((∃ r ∈ rows, r.length ≠ r0.length) → Mat2.from_vec rows = none) ∧
      ((∀ r ∈ rows, r.length = r0.length) →
        Mat2.from_vec rows = some ⟨rows, rows.length, r0.length⟩ ∧
        Mat2.matEq (⟨rows, rows.length, r0.length⟩ : Mat2 T)
          (Mat2.new_with rows.length r0.length
            (fun i j => (rows.getD i []).getD j default)))) := by
  refine ⟨rfl, fun r0 rest hrows => ⟨?_, ?_⟩⟩
  · intro hragged
    subst hrows
    have hcond : ¬ ((r0 :: rest).all (fun x => x.length == r0.length) = true) := by
      intro hall
      rw [List.all_eq_true] at hall
      obtain ⟨r, hr, hne⟩ := hragged
      exact hne (by simpa using hall r hr)
    simp only [Mat2.from_vec]
    rw [if_neg hcond]
  · intro hrect
    subst hrows
    have hcond : (r0 :: rest).all (fun x => x.length == r0.length) = true := by
      rw [List.all_eq_true]
      intro r hr
      simp [hrect r hr]
    constructor
    · simp only [Mat2.from_vec]
      rw [if_pos hcond]
    · unfold Mat2.matEq Mat2.new_with
      dsimp only
      apply List.ext_getElem?
      intro idx
      by_cases hidx : idx < (r0 :: rest).length
      · rw [List.getElem?_eq_getElem hidx, List.getElem?_map,
          List.getElem?_range hidx]
        simp only [Option.map_some']
        congr 1
        apply List.ext_getElem?
        intro j
        have hrowlen : (r0 :: rest)[idx].length = r0.length :=
          hrect _ (List.getElem_mem hidx)
        by_cases hjm : j < r0.length
        · have hj2 : j < (r0 :: rest)[idx].length := by omega
          rw [List.getElem?_eq_getElem hj2, List.getElem?_map,
            List.getElem?_range hjm]
          simp only [Option.map_some', Option.some.injEq]
          simp only [List.getD_eq_getElem?_getD]
          rw [List.getElem?_eq_getElem hidx]
          simp only [Option.getD_some]
          rw [List.getElem?_eq_getElem hj2]
          rfl
        · rw [List.getElem?_eq_none (by omega),
            List.getElem?_eq_none (by simp only [List.length_map, List.length_range]; omega)]
      · rw [List.getElem?_eq_none (by omega),
          List.getElem?_eq_none (by simp only [List.length_map, List.length_range]; omega)]

/-- C6 witness: the rectangular branch instantiated at a concrete 2-by-2
integer input. -/
theorem C6_from_vec_validates_witness :
    Mat2.from_vec ([[1, 2], [3, 4]] : List (List Int)) =
      some ⟨[[1, 2], [3, 4]], 2, 2⟩ ∧
    Mat2.matEq (⟨[[1, 2], [3, 4]], 2, 2⟩ : Mat2 Int)
      (Mat2.new_with 2 2
        (fun i j => (([[1, 2], [3, 4]] : List (List Int)).getD i []).getD j default)) :=
  ((C6_from_vec_validates ([[1, 2], [3, 4]] : List (List Int))).2
    [1, 2] [[3, 4]] rfl).2 (by decide)

/-- C7 counterexample: the claim asserts row `i` is left unchanged for any
in-bounds `i` and `j`, but with `i = j` the operation `add_scaled(0, 0, 1)`
on `[[1]]` rewrites row 0 to `[2]`. -/
theorem C7_counterexample :
    (⟨[[1]], 1, 1⟩ : Mat2 Int).add_scaled 0 0 1 = some ⟨[[2]], 1, 1⟩ ∧
    (⟨[[1]], 1, 1⟩ : Mat2 Int).get_row 0 = some [1] ∧
    (⟨[[2]], 1, 1⟩ : Mat2 Int).get_row 0 ≠ some [1] := by
  refine ⟨by decide, by decide, by decide⟩

/-- C7 (amended): on a well-formed matrix with in-bounds `i` and `j`,
`add_scaled(i, j, a)` succeeds and overwrites row `j` with the elementwise
`row_i[k] * a + row_j[k]` computed from the pre-call rows; row `i` is left
unchanged PROVIDED `i ≠ j` (with `i = j` row `i` is the overwritten row). -/
theorem C7_add_scaled_correct {T : Type} [Mul T] [Add T] (M : Mat2 T)
    (i j : Nat) (a : T) (hw : M.wf) (hi : i < M.n) (hj : j < M.n) :
    ∃ ri rj, M.data[i]? = some ri ∧ M.data[j]? = some rj ∧
      M.add_scaled i j a =
        some { M with data := M.data.set j (List.zipWith (fun x y => x * a + y) ri rj) } ∧
      (i ≠ j →
        (M.data.set j (List.zipWith (fun x y => x * a + y) ri rj))[i]? = some ri) := by
  have hlen : M.data.length = M.n := hw.1
  have hi2 : i < M.data.length := by omega
  have hj2 : j < M.data.length := by omega
  have hri : (M.data[i]).length = M.m := hw.2 _ (List.getElem_mem hi2)
  have hrj : (M.data[j]).length = M.m := hw.2 _ (List.getElem_mem hj2)
  refine ⟨M.data[i], M.data[j], List.getElem?_eq_getElem hi2,
    List.getElem?_eq_getElem hj2, ?_, ?_⟩
  · unfold Mat2.add_scaled
    simp only [List.getElem?_eq_getElem hi2, List.getElem?_eq_getElem hj2]
    rw [scaledAdd_eq_zipWith a (M.data[i]) (M.data[j]) (by omega)]
    dsimp only
    unfold Mat2.set_row
    rw [if_pos hj2]
  · intro hne
    rw [List.getElem?_set_ne (Ne.symm hne)]
    exact List.getElem?_eq_getElem hi2

/-- C7 witness: the amended statement instantiated at the repository's own
test case, `add_scaled(0, 1, 1)` on the 3-by-3 matrix of 1..9. -/
theorem C7_add_scaled_correct_witness :
    ∃ ri rj, (⟨[[1, 2, 3], [4, 5, 6], [7, 8, 9]], 3, 3⟩ : Mat2 Int).data[0]? = some ri ∧
      (⟨[[1, 2, 3], [4, 5, 6], [7, 8, 9]], 3, 3⟩ : Mat2 Int).data[1]? = some rj ∧
      (⟨[[1, 2, 3], [4, 5, 6], [7, 8, 9]], 3, 3⟩ : Mat2 Int).add_scaled 0 1 1 =
        some { (⟨[[1, 2, 3], [4, 5, 6], [7, 8, 9]], 3, 3⟩ : Mat2 Int) with
          data := (⟨[[1, 2, 3], [4, 5, 6], [7, 8, 9]], 3, 3⟩ : Mat2 Int).data.set 1
            (List.zipWith (fun x y => x * 1 + y) ri rj) } ∧
      ((0 : Nat) ≠ 1 →
        ((⟨[[1, 2, 3], [4, 5, 6], [7, 8, 9]], 3, 3⟩ : Mat2 Int).data.set 1
          (List.zipWith (fun x y => x * 1 + y) ri rj))[0]? = some ri) :=
  C7_add_scaled_correct (⟨[[1, 2, 3], [4, 5, 6], [7, 8, 9]], 3, 3⟩ : Mat2 Int)
    0 1 1 (by decide) (by decide) (by decide)

end Linalg
namespace Linalg

/-- C8: `new(n, m)` (total, with no error path, including `n = 0` or
`m = 0`) produces a well-formed matrix whose `get_dimension` is the ordered
pair `(m, n)` and whose every element is the element type's default
value. -/
theorem C8_new_default {T : Type} [Inhabited T] (n m : Nat) :
    (Mat2.new T n m).get_dimension = (m, n) ∧
    (Mat2.new T n m).wf ∧
    (∀ i j : Nat, i < n → j < m →
      ((Mat2.new T n m).data[i]?).bind (fun r => r[j]?) = some (default : T)) := by
  refine ⟨rfl, ⟨by simp [Mat2.new], ?_⟩, ?_⟩
  · intro r hr
    simp only [Mat2.new] at hr
    rw [List.eq_of_mem_replicate hr]
    simp [Mat2.new]
  · intro i j hi hj
    simp only [Mat2.new]
    rw [List.getElem?_replicate_of_lt hi]
    simp only [Option.some_bind]
    rw [List.getElem?_replicate_of_lt hj]

/-- C8 witness: the statement instantiated at a concrete 2-by-3 integer
matrix, reading the element at row 1, column 2. -/
theorem C8_new_default_witness :
    (Mat2.new Int 2 3).get_dimension = (3, 2) ∧
    (Mat2.new Int 2 3).wf ∧
    ((Mat2.new Int 2 3).data[1]?).bind (fun r => r[2]?) = some (default : Int) :=
  ⟨(C8_new_default 2 3).1, (C8_new_default 2 3).2.1,
    (C8_new_default 2 3).2.2 1 2 (by decide) (by decide)⟩

/-- C9: on a well-formed matrix, any number `k` of `next` calls on a fresh
`row_iter` yields exactly the optional rows at indices `0, ..., k - 1` —
rows in index order while the cursor is below `row_count`, and `none` for
every subsequent call.  Iterators are pure values here: any two iterators
created by `row_iter()` on the same matrix are the same value, so they
trivially yield identical sequences. -/
theorem C9_row_iter_yields_rows {T : Type} (M : Mat2 T) (hw : M.wf) (k : Nat) :
    iterOut M.row_iter k = (List.range k).map (fun t => M.data[t]?) ∧
    (∀ t : Nat, t < M.n → (M.data[t]?).isSome) ∧
    (∀ t : Nat, M.n ≤ t → M.data[t]? = none) := by
  refine ⟨?_, ?_, ?_⟩
  · rw [show M.row_iter = (⟨M, 0⟩ : RowIterator T) from rfl, iterOut_eq M k 0]
    apply List.map_congr_left
    intro t _
    simp
  · intro t ht
    have ht2 : t < M.data.length := by
      rw [hw.1]
      exact ht
    rw [List.getElem?_eq_getElem ht2]
    rfl
  · intro t ht
    apply List.getElem?_eq_none
    rw [hw.1]
    exact ht

/-- C9 witness: the iterator over the repository's 3-by-3 test matrix,
run for four steps. -/
theorem C9_row_iter_yields_rows_witness :
    iterOut (⟨[[1, 2, 3], [4, 5, 6], [7, 8, 9]], 3, 3⟩ : Mat2 Int).row_iter 4 =
      (List.range 4).map
        (fun t => (⟨[[1, 2, 3], [4, 5, 6], [7, 8, 9]], 3, 3⟩ : Mat2 Int).data[t]?) ∧
    (∀ t : Nat, t < 3 →
      ((⟨[[1, 2, 3], [4, 5, 6], [7, 8, 9]], 3, 3⟩ : Mat2 Int).data[t]?).isSome) ∧
    (∀ t : Nat, 3 ≤ t →
      (⟨[[1, 2, 3], [4, 5, 6], [7, 8, 9]], 3, 3⟩ : Mat2 Int).data[t]? = none) :=
  C9_row_iter_yields_rows (⟨[[1, 2, 3], [4, 5, 6], [7, 8, 9]], 3, 3⟩ : Mat2 Int)
    (by decide) 4

/-- C10: on a well-formed matrix with at most as many columns as rows,
`substitute` reads the value vector only at indices below `col_count`:
two value vectors of the right length that agree there produce equal
results.  (This holds for the code as written — including its row-0 bug —
since the fold only enumerates a row of length `col_count`.) -/
theorem C10_substitute_prefix_only {T : Type} [Zero T] [Mul T] [Add T]
    (M : Mat2 T) (v1 v2 : List T) (hw : M.wf) (_hmn : M.m ≤ M.n)
    (h1 : v1.length = M.n) (h2 : v2.length = M.n)
    (hagree : ∀ k : Nat, k < M.m → v1[k]? = v2[k]?) :
    substitute M v1 = substitute M v2 := by
  unfold substitute
  rw [if_pos h1.symm, if_pos h2.symm]
  unfold new_with_opt
  congr 1
  apply optTraverse_congr
  intro i _
  apply optTraverse_congr
  intro j hj
  have hj0 : j = 0 := by
    have := List.mem_range.mp hj
    omega
  subst hj0
  dsimp only
  cases hrow : M.data[0]? with
  | none => rfl
  | some row =>
    dsimp only
    apply dotFoldAux_congr
    intro k hk1 hk2
    have hrlen : row.length = M.m := hw.2 _ (List.getElem?_mem hrow)
    exact hagree k (by omega)

/-- C10 witness: a 3-by-2 matrix with two value vectors differing only in
their final (ignored) entry. -/
theorem C10_substitute_prefix_only_witness :
    substitute (⟨[[1, 2], [3, 4], [5, 6]], 3, 2⟩ : Mat2 Int) [10, 20, 7] =
      substitute (⟨[[1, 2], [3, 4], [5, 6]], 3, 2⟩ : Mat2 Int) [10, 20, 9] :=
  C10_substitute_prefix_only (⟨[[1, 2], [3, 4], [5, 6]], 3, 2⟩ : Mat2 Int)
    [10, 20, 7] [10, 20, 9] (by decide) (by decide) (by decide) (by decide)
    (by decide)

end Linalg
